import Mathlib

/-!
Verification of the graph-pathfinder core (defold-graph-pathfinder).

This development is a shallow embedding of the pathfinding engine into Lean 4.
Machine floats of the C++ source are modelled by exact rationals; where the
source applies the hardware square root, the embedding takes an arbitrary
function of the (exactly computed) radicand, so that nothing is assumed about
rounding.  Components whose implementation ships only as a closed-source
translation unit (the `pathfinder::path` graph store and search driver, the
distance cache, and the heap pool allocator) are modelled from the
specification's words; such definitions carry a doc comment beginning
`Modelled from the spec:`.  Everything else is translated directly from the
headers in the repository, which contain the full inline implementations of
the min-heap (`pathfinder_heap.h`) and the vector math (`pathfinder_math.h`).
-/

namespace pathfinder

/-- Invalid ID constant for nodes and edges, `UINT32_MAX` in the source
(`pathfinder_constants.h`). -/
def INVALID_ID : Nat := 2 ^ 32 - 1

/-- Status codes for pathfinding and graph operations, from the `PathStatus`
enum in `pathfinder_constants.h`. -/
inductive PathStatus where
  | SUCCESS
  | ERROR_NO_PATH
  | ERROR_START_GOAL_NODE_SAME
  | ERROR_START_NODE_INVALID
  | ERROR_GOAL_NODE_INVALID
  | ERROR_NODE_FULL
  | ERROR_EDGE_FULL
  | ERROR_HEAP_FULL
  | ERROR_PATH_TOO_LONG
  | ERROR_GRAPH_CHANGED
  | ERROR_GRAPH_CHANGED_TOO_OFTEN
  | ERROR_NO_PROJECTION
  | ERROR_VIRTUAL_NODE_FAILED
  deriving DecidableEq, Repr

/-- 2D position; the source stores a pair of 32-bit floats, modelled here by
exact rationals. -/
@[ext]
structure Vec2 where
  x : ℚ
  y : ℚ
  deriving DecidableEq, Repr

namespace math

/-- Squared Euclidean distance, from `math::distance_squared` in
`pathfinder_math.h`. -/
def distance_squared (a b : Vec2) : ℚ :=
  let dx := b.x - a.x
  let dy := b.y - a.y
  dx * dx + dy * dy

/-- Project a point onto a line segment, clamped to the segment endpoints;
direct translation of `math::project_segment` in `pathfinder_math.h`
(lines 313-328). -/
def project_segment (p a b : Vec2) : Vec2 :=
  let dx := b.x - a.x
  let dy := b.y - a.y
  let length2 := dx * dx + dy * dy
  if length2 = 0 then a
  else
    let t0 := ((p.x - a.x) * dx + (p.y - a.y) * dy) / length2
    let t1 := if t0 < 0 then 0 else t0
    let t2 := if t1 > 1 then 1 else t1
    Vec2.mk (a.x + t2 * dx) (a.y + t2 * dy)

/-- The point of the segment from `a` to `b` at parameter `s`. -/
def segment_point (a b : Vec2) (s : ℚ) : Vec2 :=
  Vec2.mk (a.x + s * (b.x - a.x)) (a.y + s * (b.y - a.y))

end math

/-- Auxiliary: over exact arithmetic the squared segment length vanishes only
when the endpoints coincide. -/
theorem length2_eq_zero_iff (a b : Vec2) :
    (b.x - a.x) * (b.x - a.x) + (b.y - a.y) * (b.y - a.y) = 0 ↔ a = b := by
  constructor
  · intro h
    have hx : b.x - a.x = 0 := by nlinarith [mul_self_nonneg (b.x - a.x), mul_self_nonneg (b.y - a.y)]
    have hy : b.y - a.y = 0 := by nlinarith [mul_self_nonneg (b.x - a.x), mul_self_nonneg (b.y - a.y)]
    ext
    · linarith
    · linarith
  · intro h
    subst h
    ring

/-- Auxiliary quadratic bound: when the projection parameter is clamped to the
left endpoint, the endpoint minimizes the squared distance over the segment. -/
theorem quad_min_left (ax ay px py dx dy s : ℚ) (hs0 : 0 ≤ s)
    (hdot : (px - ax) * dx + (py - ay) * dy ≤ 0) :
    (ax + 0 * dx - px) * (ax + 0 * dx - px) + (ay + 0 * dy - py) * (ay + 0 * dy - py) ≤
      (ax + s * dx - px) * (ax + s * dx - px) + (ay + s * dy - py) * (ay + s * dy - py) := by
  nlinarith [mul_nonneg (mul_nonneg hs0 hs0)
      (add_nonneg (mul_self_nonneg dx) (mul_self_nonneg dy)),
    mul_nonneg hs0 (neg_nonneg.mpr hdot)]

/-- Auxiliary quadratic bound: when the projection parameter is clamped to the
right endpoint, that endpoint minimizes the squared distance over the
segment. -/
theorem quad_min_right (ax ay px py dx dy s : ℚ) (hs1 : s ≤ 1)
    (hdot : dx * dx + dy * dy ≤ (px - ax) * dx + (py - ay) * dy) :
    (ax + 1 * dx - px) * (ax + 1 * dx - px) + (ay + 1 * dy - py) * (ay + 1 * dy - py) ≤
      (ax + s * dx - px) * (ax + s * dx - px) + (ay + s * dy - py) * (ay + s * dy - py) := by
  nlinarith [mul_nonneg (sub_nonneg.mpr hs1) (sub_nonneg.mpr hdot),
    mul_nonneg (mul_nonneg (sub_nonneg.mpr hs1) (sub_nonneg.mpr hs1))
      (add_nonneg (mul_self_nonneg dx) (mul_self_nonneg dy))]

/-- Auxiliary quadratic bound: an unclamped critical parameter of the squared
distance minimizes it over all parameters. -/
theorem quad_min_mid (ax ay px py dx dy s t : ℚ)
    (ht : t * (dx * dx + dy * dy) = (px - ax) * dx + (py - ay) * dy) :
    (ax + t * dx - px) * (ax + t * dx - px) + (ay + t * dy - py) * (ay + t * dy - py) ≤
      (ax + s * dx - px) * (ax + s * dx - px) + (ay + s * dy - py) * (ay + s * dy - py) := by
  have hz : (s - t) * (t * (dx * dx + dy * dy) - ((px - ax) * dx + (py - ay) * dy)) = 0 := by
    rw [ht]
    ring
  nlinarith [mul_nonneg (add_nonneg (mul_self_nonneg dx) (mul_self_nonneg dy))
      (mul_self_nonneg (s - t)), hz]

/-- C9: `math::project_segment(p, a, b)` returns `a` for a zero-length
segment; otherwise it returns `a + t*(b - a)` with `t` the
orthogonal-projection parameter clamped to `[0, 1]`; the returned point lies
on the segment between `a` and `b` and is a closest point of that segment to
`p`. -/
theorem C9_project_segment_closest_point (p a b : Vec2) :
    (a = b → math.project_segment p a b = a) ∧
    (a ≠ b → math.project_segment p a b =
      math.segment_point a b
        (min 1 (max 0 (((p.x - a.x) * (b.x - a.x) + (p.y - a.y) * (b.y - a.y)) /
          ((b.x - a.x) * (b.x - a.x) + (b.y - a.y) * (b.y - a.y)))))) ∧
    (∃ s : ℚ, 0 ≤ s ∧ s ≤ 1 ∧ math.project_segment p a b = math.segment_point a b s) ∧
    (∀ s : ℚ, 0 ≤ s → s ≤ 1 →
      math.distance_squared p (math.project_segment p a b) ≤
        math.distance_squared p (math.segment_point a b s)) := by
  by_cases hL : (b.x - a.x) * (b.x - a.x) + (b.y - a.y) * (b.y - a.y) = 0
  · -- degenerate segment: a = b and every segment point equals a
    have hab : a = b := (length2_eq_zero_iff a b).mp hL
    have hx : b.x = a.x := by rw [hab]
    have hy : b.y = a.y := by rw [hab]
    have hproj : math.project_segment p a b = a := by
      simp only [math.project_segment]
      rw [if_pos hL]
    refine ⟨fun _ => hproj, fun hne => absurd hab hne, ⟨0, le_refl 0, by norm_num, ?_⟩, ?_⟩
    · rw [hproj]
      simp [math.segment_point, hx, hy]
    · intro s hs0 hs1
      have hseg : math.segment_point a b s = a := by
        simp [math.segment_point, hx, hy]
      rw [hproj, hseg]
  · -- non-degenerate segment
    have hab : a ≠ b := fun h => hL ((length2_eq_zero_iff a b).mpr h)
    have hLnn : (0 : ℚ) ≤ (b.x - a.x) * (b.x - a.x) + (b.y - a.y) * (b.y - a.y) :=
      add_nonneg (mul_self_nonneg _) (mul_self_nonneg _)
    have hLpos : 0 < (b.x - a.x) * (b.x - a.x) + (b.y - a.y) * (b.y - a.y) := by
      rcases lt_or_eq_of_le hLnn with h | h
      · exact h
      · exact absurd h.symm hL
    have hproj : math.project_segment p a b =
        math.segment_point a b
          (min 1 (max 0 (((p.x - a.x) * (b.x - a.x) + (p.y - a.y) * (b.y - a.y)) /
            ((b.x - a.x) * (b.x - a.x) + (b.y - a.y) * (b.y - a.y))))) := by
      simp only [math.project_segment, math.segment_point]
      rw [if_neg hL]
      by_cases h0 : ((p.x - a.x) * (b.x - a.x) + (p.y - a.y) * (b.y - a.y)) /
          ((b.x - a.x) * (b.x - a.x) + (b.y - a.y) * (b.y - a.y)) < 0
      · rw [if_pos h0, max_eq_left (le_of_lt h0)]
        norm_num
      · rw [if_neg h0, max_eq_right (le_of_not_lt h0)]
        by_cases h1 : 1 < ((p.x - a.x) * (b.x - a.x) + (p.y - a.y) * (b.y - a.y)) /
            ((b.x - a.x) * (b.x - a.x) + (b.y - a.y) * (b.y - a.y))
        · rw [if_pos h1, min_eq_left (le_of_lt h1)]
        · rw [if_neg h1, min_eq_right (le_of_not_lt h1)]
    refine ⟨fun h => absurd h hab, fun _ => hproj, ?_, ?_⟩
    · refine ⟨min 1 (max 0 (((p.x - a.x) * (b.x - a.x) + (p.y - a.y) * (b.y - a.y)) /
        ((b.x - a.x) * (b.x - a.x) + (b.y - a.y) * (b.y - a.y)))), ?_, ?_, hproj⟩
      · exact le_min (by norm_num) (le_max_left 0 _)
      · exact min_le_left 1 _
    · intro s hs0 hs1
      rw [hproj]
      simp only [math.distance_squared, math.segment_point]
      set dx := b.x - a.x with hdx
      set dy := b.y - a.y with hdy
      set L := dx * dx + dy * dy with hLdef
      set dot := (p.x - a.x) * dx + (p.y - a.y) * dy with hdot
      have hLpos' : 0 < L := hLpos
      by_cases hneg : dot / L < 0
      · have hdotneg : dot < 0 := by
          by_contra hcon
          exact hneg.not_le (div_nonneg (le_of_not_lt hcon) (le_of_lt hLpos'))
        rw [max_eq_left (le_of_lt hneg), min_eq_right (by norm_num : (0 : ℚ) ≤ 1)]
        exact quad_min_left a.x a.y p.x p.y dx dy s hs0 (le_of_lt hdotneg)
      · have hdotpos : 0 ≤ dot := by
          by_contra hcon
          exact hneg (div_neg_of_neg_of_pos (lt_of_not_le hcon) hLpos')
        by_cases hbig : 1 < dot / L
        · have hdotL : L < dot := by
            have h1 := (one_lt_div hLpos').mp hbig
            linarith
          rw [max_eq_right (le_of_not_lt hneg), min_eq_left (le_of_lt hbig)]
          exact quad_min_right a.x a.y p.x p.y dx dy s hs1 (le_of_lt hdotL)
        · have ht1 : dot / L ≤ 1 := le_of_not_lt hbig
          rw [max_eq_right (le_of_not_lt hneg), min_eq_right ht1]
          have hfract : dot / L * L = dot := div_mul_cancel₀ dot (ne_of_gt hLpos')
          exact quad_min_mid a.x a.y p.x p.y dx dy s (dot / L) hfract

namespace heap

/-- A heap entry, `HeapNode` in `pathfinder_heap.h`: a node index paired with
its f-score (a float in the source, modelled by a rational). -/
structure HeapNode where
  m_Index : Nat
  m_FScore : ℚ
  deriving DecidableEq, Repr

instance : Inhabited HeapNode := ⟨⟨0, 0⟩⟩

/-- A `HeapBlock` from `pathfinder_heap.h`: the backing store `m_Nodes` is a C
array, modelled as a total function from indices to entries; the live region
is `m_Nodes[0 .. m_Size-1]` and `m_Capacity` bounds the size. -/
structure HeapBlock where
  m_Nodes : Nat → HeapNode
  m_Size : Nat
  m_Capacity : Nat

/-- Write one cell of the backing store. -/
def setNode (f : Nat → HeapNode) (i : Nat) (x : HeapNode) : Nat → HeapNode :=
  fun j => if j = i then x else f j

/-- `heap::swap`: exchange two cells of the backing store. -/
def swapNodes (f : Nat → HeapNode) (index_a index_b : Nat) : Nat → HeapNode :=
  setNode (setNode f index_a (f index_b)) index_b (f index_a)

/-- The bubble-up loop of `heap::push` (lines 467-474 of the header): while
the current element is smaller than its parent, swap them and move up. -/
def bubbleUp (f : Nat → HeapNode) (current : Nat) : Nat → HeapNode :=
  if h : current = 0 then f
  else
    let parent := (current - 1) / 2
    if (f parent).m_FScore ≤ (f current).m_FScore then f
    else bubbleUp (swapNodes f current parent) parent
  termination_by current
  decreasing_by
    omega

/-- `heap::push` from `pathfinder_heap.h` (lines 455-476): reject when full,
otherwise append at the end and bubble up. -/
def push (heap : HeapBlock) (index : Nat) (f_score : ℚ) : HeapBlock × PathStatus :=
  if heap.m_Size ≥ heap.m_Capacity then (heap, PathStatus.ERROR_HEAP_FULL)
  else
    let current := heap.m_Size
    let nodes := setNode heap.m_Nodes current (HeapNode.mk index f_score)
    ({ heap with m_Nodes := bubbleUp nodes current, m_Size := heap.m_Size + 1 },
      PathStatus.SUCCESS)

/-- `heap::is_empty`. -/
def is_empty (heap : HeapBlock) : Bool :=
  heap.m_Size = 0

/-- `heap::size`. -/
def size (heap : HeapBlock) : Nat :=
  heap.m_Size

/-- The child-selection step of `heap::pop` (lines 610-621 of the header):
the index of the smallest among the current element and its in-range
children. -/
def smallestIndex (f : Nat → HeapNode) (sz current : Nat) : Nat :=
  let left_child := 2 * current + 1
  let right_child := 2 * current + 2
  let smallest1 :=
    if left_child < sz ∧ (f left_child).m_FScore < (f current).m_FScore then left_child
    else current
  if right_child < sz ∧ (f right_child).m_FScore < (f smallest1).m_FScore then right_child
  else smallest1

/-- The selected child index is either the current index or a strictly larger
in-range index. -/
theorem smallestIndex_range (f : Nat → HeapNode) (sz current : Nat) :
    smallestIndex f sz current = current ∨
      (current < smallestIndex f sz current ∧ smallestIndex f sz current < sz) := by
  simp only [smallestIndex]
  split_ifs with h1 h2 h3
  · right
    exact ⟨by omega, h2.1⟩
  · right
    exact ⟨by omega, h1.1⟩
  · right
    exact ⟨by omega, h3.1⟩
  · left
    rfl

/-- The bubble-down loop of `heap::pop` (lines 607-630 of the header): find
the smallest among the current element and its children, swap down until the
heap property is restored.  `sz` is the heap size after the decrement. -/
def bubbleDown (f : Nat → HeapNode) (sz : Nat) (current : Nat) : Nat → HeapNode :=
  if smallestIndex f sz current = current then f
  else bubbleDown (swapNodes f current (smallestIndex f sz current)) sz
    (smallestIndex f sz current)
  termination_by sz - current
  decreasing_by
    rcases smallestIndex_range f sz current with h1 | h1
    · exact absurd h1 (by assumption)
    · omega

/-- `heap::pop` from `pathfinder_heap.h` (lines 589-634): return `INVALID_ID`
on an empty heap; otherwise extract the root, move the last element to the
root and bubble it down. -/
def pop (heap : HeapBlock) : HeapBlock × Nat :=
  if heap.m_Size = 0 then (heap, INVALID_ID)
  else
    let result := (heap.m_Nodes 0).m_Index
    let sz := heap.m_Size - 1
    let nodes :=
      if 0 < sz then bubbleDown (setNode heap.m_Nodes 0 (heap.m_Nodes sz)) sz 0
      else heap.m_Nodes
    ({ heap with m_Nodes := nodes, m_Size := sz }, result)

/-- Pointwise evaluation of `setNode`. -/
theorem setNode_apply (f : Nat → HeapNode) (i : Nat) (x : HeapNode) (j : Nat) :
    setNode f i x j = if j = i then x else f j := rfl

/-- Pointwise evaluation of `heap::swap`. -/
theorem swapNodes_apply (f : Nat → HeapNode) (a b j : Nat) :
    swapNodes f a b j = if j = b then f a else if j = a then f b else f j := rfl

/-- `heap::swap` moves the first cell to the second position. -/
theorem swapNodes_at_snd (f : Nat → HeapNode) (a b : Nat) :
    swapNodes f a b b = f a := by
  rw [swapNodes_apply, if_pos rfl]

/-- `heap::swap` moves the second cell to the first position. -/
theorem swapNodes_at_fst (f : Nat → HeapNode) (a b : Nat) (h : a ≠ b) :
    swapNodes f a b a = f b := by
  rw [swapNodes_apply, if_neg h, if_pos rfl]

/-- `heap::swap` leaves all other positions unchanged. -/
theorem swapNodes_at_other (f : Nat → HeapNode) (a b j : Nat)
    (ha : j ≠ a) (hb : j ≠ b) : swapNodes f a b j = f j := by
  rw [swapNodes_apply, if_neg hb, if_neg ha]

/-- The parent index in the implicit binary tree, `(i - 1) / 2` in the
source. -/
def parentIdx (i : Nat) : Nat := (i - 1) / 2

/-- The binary min-heap property on the live region `[0, sz)` of a backing
store: every element is at least its parent. -/
def IsMinHeap (f : Nat → HeapNode) (sz : Nat) : Prop :=
  ∀ i, 0 < i → i < sz → (f (parentIdx i)).m_FScore ≤ (f i).m_FScore

/-- Intermediate state of the bubble-up loop: the heap property holds at
every index other than `c`, and the parent of `c` already bounds the
children of `c`. -/
def AlmostUp (f : Nat → HeapNode) (sz c : Nat) : Prop :=
  (∀ i, 0 < i → i < sz → i ≠ c → (f (parentIdx i)).m_FScore ≤ (f i).m_FScore) ∧
  (0 < c → ∀ j, j < sz → parentIdx j = c →
    (f (parentIdx c)).m_FScore ≤ (f j).m_FScore)

/-- The bubble-up loop restores the min-heap property from an `AlmostUp`
state. -/
theorem bubbleUp_isMinHeap (c : Nat) : ∀ f : Nat → HeapNode, ∀ sz : Nat, c < sz →
    AlmostUp f sz c → IsMinHeap (bubbleUp f c) sz := by
  induction c using Nat.strong_induction_on with
  | _ c ih =>
    intro f sz hcsz h
    rcases h with ⟨h1, h2⟩
    by_cases hc0 : c = 0
    · rw [hc0]
      rw [bubbleUp]
      simp only [dif_pos rfl]
      intro i hi0 hisz
      exact h1 i hi0 hisz (by omega)
    · rw [bubbleUp]
      rw [dif_neg hc0]
      by_cases hle : (f ((c - 1) / 2)).m_FScore ≤ (f c).m_FScore
      · rw [if_pos hle]
        intro i hi0 hisz
        by_cases hic : i = c
        · rw [hic]
          exact hle
        · exact h1 i hi0 hisz hic
      · rw [if_neg hle]
        have hlt : (f c).m_FScore < (f ((c - 1) / 2)).m_FScore := lt_of_not_le hle
        have hpc : parentIdx c = (c - 1) / 2 := rfl
        have hplt : (c - 1) / 2 < c := by omega
        refine ih ((c - 1) / 2) hplt (swapNodes f c ((c - 1) / 2)) sz (by omega) ⟨?_, ?_⟩
        · -- first component of AlmostUp for the swapped store
          intro i hi0 hisz hip
          by_cases hic : i = c
          · subst hic
            rw [show parentIdx i = (i - 1) / 2 from rfl, swapNodes_at_snd,
              swapNodes_at_fst f i ((i - 1) / 2) (by omega)]
            exact le_of_lt hlt
          · by_cases hpi_c : parentIdx i = c
            · have hi_gt : c < i := by
                rw [parentIdx] at hpi_c
                omega
              rw [hpi_c, swapNodes_at_fst f c ((c - 1) / 2) (by omega),
                swapNodes_at_other f c ((c - 1) / 2) i hic (by omega)]
              have hch := h2 (by omega) i hisz hpi_c
              rw [hpc] at hch
              exact hch
            · by_cases hpi_p : parentIdx i = (c - 1) / 2
              · have hi_gt : (c - 1) / 2 < i := by
                  rw [parentIdx] at hpi_p
                  omega
                rw [hpi_p, swapNodes_at_snd,
                  swapNodes_at_other f c ((c - 1) / 2) i hic (by omega)]
                have hstep := h1 i hi0 hisz hic
                rw [hpi_p] at hstep
                calc (f c).m_FScore ≤ (f ((c - 1) / 2)).m_FScore := le_of_lt hlt
                  _ ≤ (f i).m_FScore := hstep
              · rw [swapNodes_at_other f c ((c - 1) / 2) (parentIdx i) hpi_c hpi_p,
                  swapNodes_at_other f c ((c - 1) / 2) i hic hip]
                exact h1 i hi0 hisz hic
        · -- second component: grandparent bounds the new children
          intro hp0 j hjsz hpj
          have hgp : parentIdx ((c - 1) / 2) < (c - 1) / 2 := by
            rw [parentIdx]
            omega
          have hjgt : (c - 1) / 2 < j := by
            rw [parentIdx] at hpj
            omega
          rw [swapNodes_at_other f c ((c - 1) / 2) (parentIdx ((c - 1) / 2))
            (by omega) (by omega)]
          by_cases hjc : j = c
          · subst hjc
            rw [swapNodes_at_fst f j ((j - 1) / 2) (by omega)]
            exact h1 ((j - 1) / 2) hp0 (by omega) (by omega)
          · rw [swapNodes_at_other f c ((c - 1) / 2) j hjc (by omega)]
            have hstep := h1 j (by omega) hjsz hjc
            rw [hpj] at hstep
            have hpar := h1 ((c - 1) / 2) hp0 (by omega) (by omega)
            exact le_trans hpar hstep

/-- Pushing into a non-full heap re-establishes the min-heap property. -/
theorem push_isMinHeap (heap : HeapBlock) (index : Nat) (f_score : ℚ)
    (h : IsMinHeap heap.m_Nodes heap.m_Size) :
    IsMinHeap (push heap index f_score).1.m_Nodes (push heap index f_score).1.m_Size := by
  by_cases hfull : heap.m_Size ≥ heap.m_Capacity
  · rw [push, if_pos hfull]
    exact h
  · rw [push, if_neg hfull]
    apply bubbleUp_isMinHeap heap.m_Size _ (heap.m_Size + 1) (by omega)
    constructor
    · intro i hi0 hisz hic
      have hp_lt : parentIdx i < heap.m_Size := by
        rw [parentIdx]
        omega
      rw [setNode_apply, setNode_apply, if_neg (by omega), if_neg (by omega)]
      exact h i hi0 (by omega)
    · intro hc0 j hj hpj
      rw [parentIdx] at hpj
      omega

/-- The selected child index is either the current index or a strictly
larger in-range index that is a child of the current index. -/
theorem smallestIndex_cases (f : Nat → HeapNode) (sz c : Nat) :
    smallestIndex f sz c = c ∨
      (c < smallestIndex f sz c ∧ smallestIndex f sz c < sz ∧
        parentIdx (smallestIndex f sz c) = c) := by
  simp only [smallestIndex]
  split_ifs with h1 h2 h3
  · right
    refine ⟨by omega, h2.1, by rw [parentIdx]; omega⟩
  · right
    refine ⟨by omega, h1.1, by rw [parentIdx]; omega⟩
  · right
    refine ⟨by omega, h3.1, by rw [parentIdx]; omega⟩
  · left
    rfl

/-- The selected child's score never exceeds the current element's score. -/
theorem smallestIndex_le (f : Nat → HeapNode) (sz c : Nat) :
    (f (smallestIndex f sz c)).m_FScore ≤ (f c).m_FScore := by
  simp only [smallestIndex]
  split_ifs with h1 h2 h3
  · exact le_of_lt (lt_trans h2.2 h1.2)
  · exact le_of_lt h1.2
  · exact le_of_lt h3.2
  · exact le_refl _

/-- The selected child's score never exceeds the score of any in-range child
of the current index. -/
theorem smallestIndex_min_child (f : Nat → HeapNode) (sz c j : Nat)
    (hj0 : 0 < j) (hj : j < sz) (hpj : parentIdx j = c) :
    (f (smallestIndex f sz c)).m_FScore ≤ (f j).m_FScore := by
  have hj_cases : j = 2 * c + 1 ∨ j = 2 * c + 2 := by
    rw [parentIdx] at hpj
    omega
  simp only [smallestIndex]
  split_ifs with h1 h2 h3
  · rcases hj_cases with hj1 | hj2
    · rw [hj1]
      exact le_of_lt h2.2
    · rw [hj2]
  · rcases hj_cases with hj1 | hj2
    · rw [hj1]
    · rw [hj2]
      have hr : ¬ (f (2 * c + 2)).m_FScore < (f (2 * c + 1)).m_FScore := by
        intro hcon
        exact h2 ⟨by omega, hcon⟩
      exact le_of_not_lt hr
  · rcases hj_cases with hj1 | hj2
    · rw [hj1]
      have hl : ¬ (f (2 * c + 1)).m_FScore < (f c).m_FScore := by
        intro hcon
        exact h1 ⟨by omega, hcon⟩
      exact le_of_lt (lt_of_lt_of_le h3.2 (le_of_not_lt hl))
    · rw [hj2]
  · rcases hj_cases with hj1 | hj2
    · rw [hj1]
      have hl : ¬ (f (2 * c + 1)).m_FScore < (f c).m_FScore := by
        intro hcon
        exact h1 ⟨by omega, hcon⟩
      exact le_of_not_lt hl
    · rw [hj2]
      have hr : ¬ (f (2 * c + 2)).m_FScore < (f c).m_FScore := by
        intro hcon
        exact h3 ⟨by omega, hcon⟩
      exact le_of_not_lt hr

/-- If the selected child differs from the current index, its score is
strictly smaller. -/
theorem smallestIndex_ne_lt (f : Nat → HeapNode) (sz c : Nat)
    (h : smallestIndex f sz c ≠ c) :
    (f (smallestIndex f sz c)).m_FScore < (f c).m_FScore := by
  simp only [smallestIndex] at h ⊢
  split_ifs at h ⊢ with h1 h2 h3
  · exact lt_trans h2.2 h1.2
  · exact h1.2
  · exact h3.2
  · exact absurd rfl h

/-- Intermediate state of the bubble-down loop: the heap property holds at
every pair whose parent is not `c`, and the parent of `c` bounds the
children of `c`. -/
def AlmostDown (f : Nat → HeapNode) (sz c : Nat) : Prop :=
  (∀ i, 0 < i → i < sz → parentIdx i ≠ c →
    (f (parentIdx i)).m_FScore ≤ (f i).m_FScore) ∧
  (0 < c → ∀ j, j < sz → parentIdx j = c →
    (f (parentIdx c)).m_FScore ≤ (f j).m_FScore)

/-- The bubble-down loop restores the min-heap property from an `AlmostDown`
state. -/
theorem bubbleDown_isMinHeap (k : Nat) : ∀ f : Nat → HeapNode, ∀ sz c : Nat,
    sz - c ≤ k → c < sz → AlmostDown f sz c → IsMinHeap (bubbleDown f sz c) sz := by
  induction k with
  | zero =>
    intro f sz c hk hc h
    omega
  | succ k ih =>
    intro f sz c hk hc h
    rcases h with ⟨h1, h2⟩
    by_cases hm : smallestIndex f sz c = c
    · rw [bubbleDown, if_pos hm]
      intro i hi0 hisz
      by_cases hpi : parentIdx i = c
      · have hmin := smallestIndex_min_child f sz c i hi0 hisz hpi
        rw [hm] at hmin
        rw [hpi]
        exact hmin
      · exact h1 i hi0 hisz hpi
    · rw [bubbleDown, if_neg hm]
      rcases smallestIndex_cases f sz c with he | ⟨hlt_cm, hmsz, hpm⟩
      · exact absurd he hm
      have hflt : (f (smallestIndex f sz c)).m_FScore < (f c).m_FScore :=
        smallestIndex_ne_lt f sz c hm
      set m := smallestIndex f sz c with hmdef
      apply ih (swapNodes f c m) sz m (by omega) hmsz
      constructor
      · intro i hi0 hisz hpi_m
        by_cases hic : i = c
        · subst hic
          have hpi_ne_c : parentIdx i ≠ i := by
            rw [parentIdx]
            omega
          have hpi_ne_m : parentIdx i ≠ m := by
            rw [parentIdx]
            omega
          rw [swapNodes_at_other f i m (parentIdx i) hpi_ne_c hpi_ne_m,
            swapNodes_at_fst f i m (by omega)]
          exact h2 (by omega) m hmsz hpm
        · by_cases him : i = m
          · subst him
            rw [hpm, swapNodes_at_fst f c m (by omega), swapNodes_at_snd]
            exact le_of_lt hflt
          · by_cases hpic : parentIdx i = c
            · rw [hpic, swapNodes_at_fst f c m (by omega),
                swapNodes_at_other f c m i hic him]
              exact smallestIndex_min_child f sz c i hi0 hisz hpic
            · rw [swapNodes_at_other f c m (parentIdx i) hpic hpi_m,
                swapNodes_at_other f c m i hic him]
              exact h1 i hi0 hisz hpic
      · intro hm0 j hjsz hpj
        rw [hpm, swapNodes_at_fst f c m (by omega)]
        have hj_gt : m < j := by
          rw [parentIdx] at hpj
          omega
        rw [swapNodes_at_other f c m j (by omega) (by omega)]
        have hstep := h1 j (by omega) hjsz (by rw [hpj]; omega)
        rw [hpj] at hstep
        exact hstep

/-- Popping preserves the min-heap property. -/
theorem pop_isMinHeap (heap : HeapBlock)
    (h : IsMinHeap heap.m_Nodes heap.m_Size) :
    IsMinHeap (pop heap).1.m_Nodes (pop heap).1.m_Size := by
  by_cases h0 : heap.m_Size = 0
  · rw [pop, if_pos h0]
    exact h
  · rw [pop, if_neg h0]
    simp only
    by_cases h1 : 0 < heap.m_Size - 1
    · rw [if_pos h1]
      apply bubbleDown_isMinHeap (heap.m_Size - 1) _ (heap.m_Size - 1) 0 (by omega) h1
      constructor
      · intro i hi0 hisz hpi
        rw [setNode_apply, setNode_apply, if_neg (by omega), if_neg (by omega)]
        exact h i hi0 (by omega)
      · intro hc0
        omega
    · rw [if_neg h1]
      intro i hi0 hisz
      omega

/-- In a min-heap the root has the minimal score of the live region. -/
theorem isMinHeap_root_le (f : Nat → HeapNode) (sz : Nat)
    (h : IsMinHeap f sz) : ∀ i, i < sz → (f 0).m_FScore ≤ (f i).m_FScore := by
  intro i
  induction i using Nat.strong_induction_on with
  | _ i ih =>
    intro hisz
    by_cases hi0 : i = 0
    · rw [hi0]
    · have hp : parentIdx i < i := by
        rw [parentIdx]
        omega
      exact le_trans (ih (parentIdx i) hp (by omega)) (h i (by omega) hisz)

/-- A heap operation: the two mutators exposed on a slice that the A* loop
uses. -/
inductive HeapOp where
  | pushOp (index : Nat) (f_score : ℚ)
  | popOp

/-- Apply one heap operation, keeping the resulting block. -/
def applyOp (heap : HeapBlock) : HeapOp → HeapBlock
  | HeapOp.pushOp i s => (push heap i s).1
  | HeapOp.popOp => (pop heap).1

/-- A freshly initialized heap block: empty live region. -/
def emptyHeap (capacity : Nat) : HeapBlock :=
  HeapBlock.mk (fun _ => default) 0 capacity

/-- Run a sequence of heap operations from the empty block. -/
def runOps (capacity : Nat) (ops : List HeapOp) : HeapBlock :=
  ops.foldl applyOp (emptyHeap capacity)

/-- Each operation preserves the min-heap property. -/
theorem applyOp_isMinHeap (heap : HeapBlock) (op : HeapOp)
    (h : IsMinHeap heap.m_Nodes heap.m_Size) :
    IsMinHeap (applyOp heap op).m_Nodes (applyOp heap op).m_Size := by
  cases op with
  | pushOp i s => exact push_isMinHeap heap i s h
  | popOp => exact pop_isMinHeap heap h

/-- Any state reachable from the empty block satisfies the min-heap
property. -/
theorem runOps_isMinHeap (capacity : Nat) (ops : List HeapOp) :
    IsMinHeap (runOps capacity ops).m_Nodes (runOps capacity ops).m_Size := by
  suffices hgen : ∀ heap : HeapBlock, IsMinHeap heap.m_Nodes heap.m_Size →
      IsMinHeap (ops.foldl applyOp heap).m_Nodes (ops.foldl applyOp heap).m_Size by
    apply hgen
    intro i hi0 hisz
    simp only [emptyHeap] at hisz
    omega
  induction ops with
  | nil => exact fun heap h => h
  | cons op rest ih =>
    intro heap h
    exact ih (applyOp heap op) (applyOp_isMinHeap heap op h)

/-- The extracted value of a non-empty pop is the root's node index. -/
theorem pop_snd_of_ne (heap : HeapBlock) (h : heap.m_Size ≠ 0) :
    (pop heap).2 = (heap.m_Nodes 0).m_Index := by
  rw [pop, if_neg h]

/-- C3: for every sequence of push and pop operations on an initially empty
heap block, the live region satisfies the binary min-heap property on the
f-scores, and every non-empty pop returns the node index of an entry whose
f-score is minimal among the entries currently in the heap. -/
theorem C3_heap_property_and_pop_min (capacity : Nat) (ops : List HeapOp) :
    IsMinHeap (runOps capacity ops).m_Nodes (runOps capacity ops).m_Size ∧
    (0 < (runOps capacity ops).m_Size →
      ∃ j, j < (runOps capacity ops).m_Size ∧
        (pop (runOps capacity ops)).2 = ((runOps capacity ops).m_Nodes j).m_Index ∧
        ∀ k, k < (runOps capacity ops).m_Size →
          ((runOps capacity ops).m_Nodes j).m_FScore ≤
            ((runOps capacity ops).m_Nodes k).m_FScore) := by
  have hinv := runOps_isMinHeap capacity ops
  exact ⟨hinv, fun hpos =>
    ⟨0, hpos, pop_snd_of_ne (runOps capacity ops) (by omega),
      isMinHeap_root_le (runOps capacity ops).m_Nodes (runOps capacity ops).m_Size hinv⟩⟩

/-- C4: `heap::push` returns `ERROR_HEAP_FULL` exactly when size has reached
capacity, in which case the block is unchanged; otherwise it returns
`SUCCESS` and the size grows by exactly one. -/
theorem C4_push_full_iff (heap : HeapBlock) (index : Nat) (f_score : ℚ) :
    ((push heap index f_score).2 = PathStatus.ERROR_HEAP_FULL ↔
      heap.m_Capacity ≤ heap.m_Size) ∧
    (heap.m_Capacity ≤ heap.m_Size →
      push heap index f_score = (heap, PathStatus.ERROR_HEAP_FULL)) ∧
    (heap.m_Size < heap.m_Capacity →
      (push heap index f_score).2 = PathStatus.SUCCESS ∧
      (push heap index f_score).1.m_Size = heap.m_Size + 1) := by
  by_cases hfull : heap.m_Size ≥ heap.m_Capacity
  · rw [push, if_pos hfull]
    exact ⟨⟨fun _ => hfull, fun _ => rfl⟩, fun _ => rfl,
      fun hlt => absurd hfull (by omega)⟩
  · rw [push, if_neg hfull]
    exact ⟨⟨fun hcon => absurd hcon (by simp), fun hge => absurd hge hfull⟩,
      fun hge => absurd hge hfull, fun _ => ⟨rfl, rfl⟩⟩

/-- C10: `heap::pop` on an empty heap returns the sentinel `INVALID_ID`
(`UINT32_MAX`) and leaves the heap unchanged. -/
theorem C10_pop_empty_invalid (heap : HeapBlock) (h : heap.m_Size = 0) :
    pop heap = (heap, INVALID_ID) := by
  rw [pop, if_pos h]

/-- Witness for C10: popping a freshly initialized block of capacity 8. -/
theorem C10_pop_empty_invalid_witness :
    pop (emptyHeap 8) = (emptyHeap 8, INVALID_ID) :=
  C10_pop_empty_invalid (emptyHeap 8) rfl

/-- Modelled from the spec: the bodies of `heap::pool_init`, `heap::init`
(slice acquisition) and `heap::reset` (slice release) live in the
closed-source translation unit; `pathfinder_heap.h` only declares them.  Per
spec section 4.2 the pool owns one contiguous buffer and a water-mark
cursor (`m_Size`, the next free offset, as in the `HeapPool` struct of the
header); only the bookkeeping counters are modelled. -/
structure HeapPool where
  m_Size : Nat
  m_Capacity : Nat
  deriving DecidableEq, Repr

/-- Modelled from the spec: `acquire(block_size)` returns a slice starting at
the cursor and advances it; if the slice would overflow, returns
`HEAP_FULL`.  The returned number is the slice's `m_PoolOffset`. -/
def pool_acquire (pool : HeapPool) (block_size : Nat) :
    (HeapPool × Nat) × PathStatus :=
  if pool.m_Size + block_size > pool.m_Capacity then
    ((pool, 0), PathStatus.ERROR_HEAP_FULL)
  else
    ((HeapPool.mk (pool.m_Size + block_size) pool.m_Capacity, pool.m_Size),
      PathStatus.SUCCESS)

/-- Modelled from the spec: `release(slice)` restores the cursor to the
slice's start (LIFO discipline). -/
def pool_release (pool : HeapPool) (pool_offset : Nat) : HeapPool :=
  HeapPool.mk pool_offset pool.m_Capacity

/-- C7: releasing a heap slice restores the pool cursor to that slice's
start: a successful acquire followed by its release restores the pool
exactly, and for two nested acquires released in LIFO order the cursor also
returns to its initial value. -/
theorem C7_pool_release_lifo (pool : HeapPool) (b1 b2 : Nat) :
    ((pool_acquire pool b1).2 = PathStatus.SUCCESS →
      pool_release (pool_acquire pool b1).1.1 (pool_acquire pool b1).1.2 = pool) ∧
    ((pool_acquire pool b1).2 = PathStatus.SUCCESS →
      (pool_acquire (pool_acquire pool b1).1.1 b2).2 = PathStatus.SUCCESS →
      pool_release
        (pool_release (pool_acquire (pool_acquire pool b1).1.1 b2).1.1
          (pool_acquire (pool_acquire pool b1).1.1 b2).1.2)
        (pool_acquire pool b1).1.2 = pool) := by
  by_cases h1 : pool.m_Size + b1 > pool.m_Capacity
  · rw [pool_acquire, if_pos h1]
    exact ⟨fun hcon => absurd hcon (by simp), fun hcon => absurd hcon (by simp)⟩
  · rw [pool_acquire, if_neg h1]
    refine ⟨fun _ => rfl, fun _ => ?_⟩
    by_cases h2 : pool.m_Size + b1 + b2 > pool.m_Capacity
    · rw [pool_acquire, if_pos (by simpa using h2)]
      exact fun hcon => absurd hcon (by simp)
    · rw [pool_acquire, if_neg (by simpa using h2)]
      exact fun _ => rfl

end heap

namespace path

/-- One directed edge record of the flat per-source edge region
(`pathfinder_types.h`): destination id, traversal cost and the
bidirectional flag. -/
structure Edge where
  m_To : Nat
  m_Cost : ℚ
  m_Bidirectional : Bool
  deriving DecidableEq, Repr

/-- Modelled from the spec: the graph store of `pathfinder::path` lives in
the closed-source translation unit; only `pathfinder_path.h` declares its
operations.  Per spec section 3, the store keeps dense arrays of positioned
nodes with active flags, per-source edge regions bounded by
`max_edges_per_node`, and the two monotonic version counters.  Arrays are
modelled as total functions from slot index. -/
structure Graph where
  m_MaxNodes : Nat
  m_MaxEdgesPerNode : Nat
  m_Active : Nat → Bool
  m_Positions : Nat → Vec2
  m_Edges : Nat → List Edge
  m_NodeVersion : Nat
  m_EdgeVersion : Nat

/-- A node id is valid when it is in range and its slot is active. -/
def is_node_valid (g : Graph) (id : Nat) : Bool :=
  decide (id < g.m_MaxNodes) && g.m_Active id

/-- The number of active slots. -/
def activeCount (g : Graph) : Nat :=
  ((List.range g.m_MaxNodes).filter (fun i => g.m_Active i)).length

/-- Modelled from the spec: `add_node` performs a linear scan for the first
inactive slot (spec section 4.1); this is that scan. -/
def firstInactiveSlot (g : Graph) : Option Nat :=
  (List.range g.m_MaxNodes).find? (fun i => ! g.m_Active i)

/-- Modelled from the spec: `path::add_node` (declared in
`pathfinder_path.h`, body closed-source) scans for the first inactive slot,
activates it, records the position and bumps the node version; it fails with
`ERROR_NODE_FULL` and returns `INVALID_ID` when no slot is free. -/
def add_node (g : Graph) (node_position : Vec2) : (Nat × PathStatus) × Graph :=
  match firstInactiveSlot g with
  | none => ((INVALID_ID, PathStatus.ERROR_NODE_FULL), g)
  | some i =>
      ((i, PathStatus.SUCCESS),
        { g with
          m_Active := fun j => if j = i then true else g.m_Active j,
          m_Positions := fun j => if j = i then node_position else g.m_Positions j,
          m_NodeVersion := g.m_NodeVersion + 1 })

/-- Append one directed edge record to a source's region. -/
def append_edge (g : Graph) (u v : Nat) (cost : ℚ) (bid : Bool) : Graph :=
  { g with
    m_Edges := fun j => if j = u then g.m_Edges u ++ [Edge.mk v cost bid] else g.m_Edges j }

/-- Modelled from the spec: `path::add_edge` (declared in
`pathfinder_path.h`, body closed-source) fails with `START_NODE_INVALID`
when the source is not active, with `EDGE_FULL` when a touched region is
full, and otherwise appends the edge (both directions when bidirectional)
and bumps the edge version. -/
def add_edge (g : Graph) (from_node to_node : Nat) (cost : ℚ)
    (bidirectional : Bool) : Graph × PathStatus :=
  if ¬ is_node_valid g from_node = true then (g, PathStatus.ERROR_START_NODE_INVALID)
  else if g.m_MaxEdgesPerNode ≤ (g.m_Edges from_node).length then
    (g, PathStatus.ERROR_EDGE_FULL)
  else if bidirectional = true then
    if g.m_MaxEdgesPerNode ≤ (g.m_Edges to_node).length then
      (g, PathStatus.ERROR_EDGE_FULL)
    else
      ({ append_edge (append_edge g from_node to_node cost true) to_node from_node cost true
          with m_EdgeVersion := g.m_EdgeVersion + 1 },
        PathStatus.SUCCESS)
  else
    ({ append_edge g from_node to_node cost false with m_EdgeVersion := g.m_EdgeVersion + 1 },
      PathStatus.SUCCESS)

/-- Modelled from the spec: `path::remove_node` (declared in
`pathfinder_path.h`, body closed-source) deactivates the slot, removes all
incident edges (its own region and, in every other source, the edges whose
destination it is) and bumps both versions; it is a no-op on an
invalid or inactive id.  Swap-and-pop removal is modelled as filtering. -/
def remove_node (g : Graph) (id : Nat) : Graph :=
  if ¬ is_node_valid g id = true then g
  else
    { g with
      m_Active := fun j => if j = id then false else g.m_Active j,
      m_Edges := fun j =>
        if j = id then [] else (g.m_Edges j).filter (fun e => e.m_To != id),
      m_NodeVersion := g.m_NodeVersion + 1,
      m_EdgeVersion := g.m_EdgeVersion + 1 }

/-- The retry budget of the graph-changed protocol (spec section 4.4:
retries up to 3 times). -/
def MAX_GRAPH_CHANGE_RETRIES : Nat := 3

/-- Modelled from the spec: the A* driver of `path::find_path` (body
closed-source).  One A* attempt either completes with a status and a path
or aborts with `ERROR_GRAPH_CHANGED` when its version snapshot is stale;
attempts are abstracted as an oracle indexed by the retry count, and the
public entry point retries up to `MAX_GRAPH_CHANGE_RETRIES` times, then
returns `ERROR_GRAPH_CHANGED_TOO_OFTEN`. -/
def run_astar_with_retries (attempt : Nat → PathStatus × List Nat)
    (retry_count : Nat) : PathStatus × List Nat :=
  if (attempt retry_count).1 = PathStatus.ERROR_GRAPH_CHANGED then
    if retry_count < MAX_GRAPH_CHANGE_RETRIES then
      run_astar_with_retries attempt (retry_count + 1)
    else (PathStatus.ERROR_GRAPH_CHANGED_TOO_OFTEN, [])
  else attempt retry_count
  termination_by MAX_GRAPH_CHANGE_RETRIES - retry_count
  decreasing_by
    omega

/-- Modelled from the spec: `path::find_path` (declared in
`pathfinder_path.h`, body closed-source), spec section 4.4: validate start
and goal, return `START_GOAL_NODE_SAME` with an empty path when they
coincide, then run the A* attempts under the retry protocol.  The result is
(path length, status, path). -/
def find_path (attempt : Nat → PathStatus × List Nat) (g : Graph)
    (start_id goal_id : Nat) : Nat × PathStatus × List Nat :=
  if ¬ is_node_valid g start_id = true then (0, PathStatus.ERROR_START_NODE_INVALID, [])
  else if ¬ is_node_valid g goal_id = true then (0, PathStatus.ERROR_GOAL_NODE_INVALID, [])
  else if start_id = goal_id then (0, PathStatus.ERROR_START_GOAL_NODE_SAME, [])
  else
    let r := run_astar_with_retries attempt 0
    (r.2.length, r.1, r.2)

/-- C8: when every node slot is active, `add_node` returns `INVALID_ID`
with status `ERROR_NODE_FULL` and leaves the graph unchanged, so the active
node count stays the same. -/
theorem C8_add_node_full (g : Graph) (node_position : Vec2)
    (hfull : ∀ i, i < g.m_MaxNodes → g.m_Active i = true) :
    add_node g node_position = ((INVALID_ID, PathStatus.ERROR_NODE_FULL), g) ∧
    activeCount (add_node g node_position).2 = activeCount g := by
  have hnone : firstInactiveSlot g = none := by
    rw [firstInactiveSlot, List.find?_eq_none]
    intro i hi
    rw [List.mem_range] at hi
    simp [hfull i hi]
  have heq : add_node g node_position = ((INVALID_ID, PathStatus.ERROR_NODE_FULL), g) := by
    rw [add_node, hnone]
  exact ⟨heq, by rw [heq]⟩

/-- A concrete two-slot graph whose slots are both active. -/
def twoNodeFullGraph : Graph :=
  Graph.mk 2 4 (fun _ => true) (fun _ => Vec2.mk 0 0) (fun _ => []) 2 0

/-- Witness for C8: with `max_nodes = 2` and both slots active, adding a
third node fails with `ERROR_NODE_FULL` and the graph keeps its 2 nodes. -/
theorem C8_add_node_full_witness :
    (add_node twoNodeFullGraph (Vec2.mk 5 5) =
        ((INVALID_ID, PathStatus.ERROR_NODE_FULL), twoNodeFullGraph) ∧
      activeCount (add_node twoNodeFullGraph (Vec2.mk 5 5)).2 =
        activeCount twoNodeFullGraph) ∧
    activeCount twoNodeFullGraph = 2 :=
  ⟨C8_add_node_full twoNodeFullGraph (Vec2.mk 5 5) (fun _ _ => rfl), rfl⟩

/-- C5: for every active node `n`, `find_path` from `n` to `n` returns the
status `ERROR_START_GOAL_NODE_SAME` together with an empty path of length
0, whatever the A* attempts would have produced. -/
theorem C5_find_path_same_node (attempt : Nat → PathStatus × List Nat)
    (g : Graph) (n : Nat) (h : is_node_valid g n = true) :
    find_path attempt g n n = (0, PathStatus.ERROR_START_GOAL_NODE_SAME, []) := by
  rw [find_path, if_neg (by simp [h]), if_neg (by simp [h]), if_pos rfl]

/-- A concrete one-node graph with its slot active. -/
def oneNodeGraph : Graph :=
  Graph.mk 1 4 (fun _ => true) (fun _ => Vec2.mk 3 4) (fun _ => []) 1 0

/-- Witness for C5: querying node 0 to node 0 on a concrete graph. -/
theorem C5_find_path_same_node_witness :
    find_path (fun _ => (PathStatus.SUCCESS, [0])) oneNodeGraph 0 0 =
      (0, PathStatus.ERROR_START_GOAL_NODE_SAME, []) :=
  C5_find_path_same_node (fun _ => (PathStatus.SUCCESS, [0])) oneNodeGraph 0 (by decide)

/-- When every attempt up to the retry budget reports a stale snapshot, the
retry loop ends with `ERROR_GRAPH_CHANGED_TOO_OFTEN`. -/
theorem run_retries_all_fail (attempt : Nat → PathStatus × List Nat)
    (hall : ∀ k, k ≤ MAX_GRAPH_CHANGE_RETRIES →
      (attempt k).1 = PathStatus.ERROR_GRAPH_CHANGED) :
    run_astar_with_retries attempt 0 =
      (PathStatus.ERROR_GRAPH_CHANGED_TOO_OFTEN, []) := by
  have h0 := hall 0 (by norm_num [MAX_GRAPH_CHANGE_RETRIES])
  have h1 := hall 1 (by norm_num [MAX_GRAPH_CHANGE_RETRIES])
  have h2 := hall 2 (by norm_num [MAX_GRAPH_CHANGE_RETRIES])
  have h3 := hall 3 (by norm_num [MAX_GRAPH_CHANGE_RETRIES])
  rw [run_astar_with_retries, if_pos h0,
    if_pos (by norm_num [MAX_GRAPH_CHANGE_RETRIES])]
  rw [run_astar_with_retries, if_pos h1,
    if_pos (by norm_num [MAX_GRAPH_CHANGE_RETRIES])]
  rw [run_astar_with_retries, if_pos h2,
    if_pos (by norm_num [MAX_GRAPH_CHANGE_RETRIES])]
  rw [run_astar_with_retries, if_pos h3,
    if_neg (by norm_num [MAX_GRAPH_CHANGE_RETRIES])]

/-- The retry loop consults no attempt beyond the retry budget: its result
depends only on the attempts with index at most `MAX_GRAPH_CHANGE_RETRIES`. -/
theorem run_retries_congr (attempt attempt2 : Nat → PathStatus × List Nat)
    (hagree : ∀ k, k ≤ MAX_GRAPH_CHANGE_RETRIES → attempt k = attempt2 k) :
    ∀ d r, MAX_GRAPH_CHANGE_RETRIES - r ≤ d → r ≤ MAX_GRAPH_CHANGE_RETRIES →
      run_astar_with_retries attempt r = run_astar_with_retries attempt2 r := by
  intro d
  induction d with
  | zero =>
    intro r hd hr
    have hr3 : ¬ r < MAX_GRAPH_CHANGE_RETRIES := by omega
    conv_lhs => rw [run_astar_with_retries]
    conv_rhs => rw [run_astar_with_retries]
    rw [hagree r hr, if_neg hr3, if_neg hr3]
  | succ d ih =>
    intro r hd hr
    conv_lhs => rw [run_astar_with_retries]
    conv_rhs => rw [run_astar_with_retries]
    rw [hagree r hr]
    by_cases hgc : (attempt2 r).1 = PathStatus.ERROR_GRAPH_CHANGED
    · rw [if_pos hgc, if_pos hgc]
      by_cases hlt : r < MAX_GRAPH_CHANGE_RETRIES
      · rw [if_pos hlt, if_pos hlt]
        exact ih (r + 1) (by omega) (by omega)
      · rw [if_neg hlt, if_neg hlt]
    · rw [if_neg hgc, if_neg hgc]

/-- C2: when every A* attempt aborts with a graph-version mismatch, the
public entry point `find_path` retries at most 3 times and then returns
`ERROR_GRAPH_CHANGED_TOO_OFTEN` with an empty path; it performs no further
retries, in that the result depends only on the first four attempts
(attempt 0 and the 3 retries). -/
theorem C2_find_path_retry_limit (attempt attempt2 : Nat → PathStatus × List Nat)
    (g : Graph) (start_id goal_id : Nat) :
    (is_node_valid g start_id = true → is_node_valid g goal_id = true →
      start_id ≠ goal_id →
      (∀ k, k ≤ MAX_GRAPH_CHANGE_RETRIES →
        (attempt k).1 = PathStatus.ERROR_GRAPH_CHANGED) →
      find_path attempt g start_id goal_id =
        (0, PathStatus.ERROR_GRAPH_CHANGED_TOO_OFTEN, [])) ∧
    ((∀ k, k ≤ MAX_GRAPH_CHANGE_RETRIES → attempt k = attempt2 k) →
      find_path attempt g start_id goal_id = find_path attempt2 g start_id goal_id) := by
  constructor
  · intro hs hg hne hall
    rw [find_path, if_neg (by simp [hs]), if_neg (by simp [hg]), if_neg hne]
    rw [run_retries_all_fail attempt hall]
    rfl
  · intro hagree
    rw [find_path, find_path,
      run_retries_congr attempt attempt2 hagree MAX_GRAPH_CHANGE_RETRIES 0
        (by omega) (by omega)]

end path

namespace distance_cache

/-- The linear-probe budget of the distance cache (spec section 4.3:
`MAX_PROBES`, recommended 8). -/
def MAX_PROBES : Nat := 8

/-- One cache entry: the normalized node pair, the stored distance and the
valid flag (spec section 4.3 / `pathfinder_distance_cache.h`). -/
structure DistanceCacheEntry where
  m_From : Nat
  m_To : Nat
  m_Distance : ℚ
  m_Valid : Bool
  deriving DecidableEq, Repr

/-- Modelled from the spec: the distance-cache table of
`pathfinder_distance_cache.h` (body closed-source); a hash table with
linear probing, modelled as a total function from slot index to optional
entry plus the slot count. -/
structure DistanceCache where
  m_Entries : Nat → Option DistanceCacheEntry
  m_SlotCount : Nat

/-- Modelled from the spec: the commutative hash is a mix of the ordered
pair `(min, max)` (spec section 4.3: `h(a,b) = mix(min(a,b), max(a,b))`);
the concrete mixing constants are unspecified there, so any fixed mix of
the normalized pair is faithful. -/
def hash_pair (lo hi slot_count : Nat) : Nat :=
  (lo * 2654435761 + hi * 40503) % slot_count

/-- Modelled from the spec: the probe loop of `cache_get`.  Probe up to the
remaining budget; on a valid matching entry return the cached distance and
its slot; on the first empty slot store the computed distance there; when
every probed slot holds an unrelated entry, fall through to the raw
computation without caching. -/
def cache_probe (c : DistanceCache) (lo hi : Nat) (dist : ℚ) :
    Nat → Nat → ℚ × Option Nat × DistanceCache
  | _, 0 => (dist, none, c)
  | k, remaining + 1 =>
    let slot := (hash_pair lo hi c.m_SlotCount + k) % c.m_SlotCount
    match c.m_Entries slot with
    | some e =>
      if e.m_Valid = true ∧ e.m_From = lo ∧ e.m_To = hi then (e.m_Distance, some slot, c)
      else cache_probe c lo hi dist (k + 1) remaining
    | none =>
      (dist, some slot,
        { c with m_Entries := fun j =>
            if j = slot then some (DistanceCacheEntry.mk lo hi dist true)
            else c.m_Entries j })

/-- Modelled from the spec: `distance_cache::cache_get` (declared in
`pathfinder_distance_cache.h`, body closed-source).  The all-ones sentinel
returns 0 and is not cached; otherwise the unordered pair is normalized,
the Euclidean distance of the two node positions is computed (the hardware
square root is modelled by the arbitrary function `sqrtA` of the exact
radicand) and the probe loop resolves the slot.  Returns (distance,
resolved slot, updated cache). -/
def cache_get (sqrtA : ℚ → ℚ) (nodes : Nat → Vec2) (c : DistanceCache)
    (from_node to_node : Nat) : ℚ × Option Nat × DistanceCache :=
  if from_node = INVALID_ID ∨ to_node = INVALID_ID then (0, none, c)
  else
    cache_probe c (min from_node to_node) (max from_node to_node)
      (sqrtA (math.distance_squared (nodes from_node) (nodes to_node))) 0 MAX_PROBES

/-- The squared distance is symmetric in its two points. -/
theorem distance_squared_comm (a b : Vec2) :
    math.distance_squared a b = math.distance_squared b a := by
  simp only [math.distance_squared]
  ring

/-- C6: the distance cache is commutative: querying `(a, b)` and `(b, a)`
returns the same distance, resolves the same cache slot (the entry is
stored once for the unordered pair), and leaves the cache in the same
state. -/
theorem C6_cache_get_comm (sqrtA : ℚ → ℚ) (nodes : Nat → Vec2)
    (c : DistanceCache) (a b : Nat) :
    cache_get sqrtA nodes c a b = cache_get sqrtA nodes c b a := by
  rw [cache_get, cache_get]
  by_cases h : a = INVALID_ID ∨ b = INVALID_ID
  · rw [if_pos h, if_pos (Or.symm h)]
  · rw [if_neg h, if_neg (fun hc => h (Or.symm hc)), min_comm b a, max_comm b a,
      distance_squared_comm (nodes b) (nodes a)]

end distance_cache

namespace path

/-- Modelled from the spec: the projection scan of `find_path_projected`
(spec section 4.6/4.7: for each active edge between active nodes, project
the query point onto the segment).  Each candidate carries the edge's
endpoints, its bidirectional flag and the projection point. -/
def edge_candidates (g : Graph) (p : Vec2) : List (Nat × Nat × Bool × Vec2) :=
  (List.range g.m_MaxNodes).bind (fun u =>
    if g.m_Active u = true then
      (g.m_Edges u).filterMap (fun e =>
        if g.m_Active e.m_To = true then
          some (u, e.m_To, e.m_Bidirectional,
            math.project_segment p (g.m_Positions u) (g.m_Positions e.m_To))
        else none)
    else [])

/-- Modelled from the spec: pick the candidate with minimal squared distance
to the query point; none when the graph has no eligible edge. -/
def find_nearest_edge (g : Graph) (p : Vec2) : Option (Nat × Nat × Bool × Vec2) :=
  (edge_candidates g p).foldl
    (fun best cand =>
      match best with
      | none => some cand
      | some b =>
        if math.distance_squared p cand.2.2.2 < math.distance_squared p b.2.2.2 then
          some cand
        else some b)
    none

/-- Modelled from the spec: the connect-search-cleanup stage of
`find_path_projected` (spec section 4.7, steps 3-5), starting from the
graph `g0` in which the transient node `vid` has just been activated at the
projection point `proj` of the located nearest edge `(u, v)`: connect `vid`
to the edge endpoints (only to the destination `v` when the edge is
one-way) with Euclidean-distance costs (square root modelled by `sqrtA`),
run `find_path` from `vid` to the goal, and remove the transient node on
every exit path, returning the path with the transient node filtered
out. -/
def connect_and_search (sqrtA : ℚ → ℚ) (attempt : Nat → PathStatus × List Nat)
    (g0 : Graph) (vid u v : Nat) (bid : Bool) (proj : Vec2) (goal_id : Nat) :
    (Nat × PathStatus × List Nat × Option Vec2) × Graph :=
  let c1 := add_edge g0 vid v
    (sqrtA (math.distance_squared proj (g0.m_Positions v))) false
  if c1.2 ≠ PathStatus.SUCCESS then ((0, c1.2, [], none), remove_node c1.1 vid)
  else
    let c2 :=
      if bid = true then
        add_edge c1.1 vid u
          (sqrtA (math.distance_squared proj (c1.1.m_Positions u))) false
      else (c1.1, PathStatus.SUCCESS)
    if c2.2 ≠ PathStatus.SUCCESS then ((0, c2.2, [], none), remove_node c2.1 vid)
    else
      let fp := find_path attempt c2.1 vid goal_id
      let out_path := fp.2.2.filter (fun x => x != vid)
      ((out_path.length, fp.2.1, out_path, some proj), remove_node c2.1 vid)

/-- Modelled from the spec: `path::find_path_projected` (declared in
`pathfinder_path.h`, body closed-source), spec section 4.7: validate the
goal, locate the nearest edge and the projection point, install a transient
virtual node there, then connect, search and clean up via
`connect_and_search`.  The A* attempts are the oracle `attempt`; the
result is (length, status, path without the virtual node, entry point)
together with the final graph. -/
def find_path_projected (sqrtA : ℚ → ℚ) (attempt : Nat → PathStatus × List Nat)
    (g : Graph) (position : Vec2) (goal_id : Nat) (virtual_max_path : Nat) :
    (Nat × PathStatus × List Nat × Option Vec2) × Graph :=
  if ¬ is_node_valid g goal_id = true then
    ((0, PathStatus.ERROR_GOAL_NODE_INVALID, [], none), g)
  else
    match find_nearest_edge g position with
    | none => ((0, PathStatus.ERROR_NO_PROJECTION, [], none), g)
    | some (u, v, bid, proj) =>
      let r := add_node g proj
      if r.1.2 ≠ PathStatus.SUCCESS then ((0, r.1.2, [], none), r.2)
      else connect_and_search sqrtA attempt r.2 r.1.1 u v bid proj goal_id

/-- The graph invariants of spec section 3 that the frame property rests
on: every edge points at an active node, and inactive slots hold no
edges. -/
def WellFormed (g : Graph) : Prop :=
  (∀ i, ∀ e ∈ g.m_Edges i, g.m_Active e.m_To = true) ∧
  (∀ i, g.m_Active i = false → g.m_Edges i = [])

/-- A slot returned by the inactive-slot scan is in range and inactive. -/
theorem firstInactiveSlot_spec (g : Graph) (i : Nat)
    (h : firstInactiveSlot g = some i) :
    i < g.m_MaxNodes ∧ g.m_Active i = false := by
  rw [firstInactiveSlot] at h
  have hmem := List.mem_of_find?_eq_some h
  have hp := List.find?_some h
  rw [List.mem_range] at hmem
  refine ⟨hmem, ?_⟩
  cases hact : g.m_Active i
  · rfl
  · rw [hact] at hp
    simp at hp

/-- A unidirectional `add_edge` never changes the active flags. -/
theorem add_edge_false_active (g : Graph) (u v : Nat) (cost : ℚ) :
    (add_edge g u v cost false).1.m_Active = g.m_Active := by
  rw [add_edge]
  split_ifs <;> rfl

/-- A unidirectional `add_edge` never changes the node capacity. -/
theorem add_edge_false_maxNodes (g : Graph) (u v : Nat) (cost : ℚ) :
    (add_edge g u v cost false).1.m_MaxNodes = g.m_MaxNodes := by
  rw [add_edge]
  split_ifs <;> rfl

/-- A unidirectional `add_edge` touches no edge region other than the
source's. -/
theorem add_edge_false_edges_ne (g : Graph) (u v : Nat) (cost : ℚ) (j : Nat)
    (hj : j ≠ u) : (add_edge g u v cost false).1.m_Edges j = g.m_Edges j := by
  rw [add_edge]
  split_ifs
  all_goals try rfl
  all_goals try exact False.elim (by assumption)
  dsimp only [append_edge]
  rw [if_neg hj]

/-- Removing a freshly activated transient slot restores the pre-activation
active flags, edge regions and active count, as long as the slot was
inactive before and the intermediate graph only differs by that slot's
activation and its own edge region. -/
theorem remove_node_frame (g g2 : Graph) (s : Nat) (hwf : WellFormed g)
    (hs_lt : s < g.m_MaxNodes) (hs_inactive : g.m_Active s = false)
    (hmax : g2.m_MaxNodes = g.m_MaxNodes)
    (hact : ∀ j, g2.m_Active j = if j = s then true else g.m_Active j)
    (hedges : ∀ j, j ≠ s → g2.m_Edges j = g.m_Edges j) :
    (∀ i, (remove_node g2 s).m_Active i = g.m_Active i) ∧
    (∀ i, (remove_node g2 s).m_Edges i = g.m_Edges i) ∧
    (remove_node g2 s).m_MaxNodes = g.m_MaxNodes := by
  have hvalid : is_node_valid g2 s = true := by
    rw [is_node_valid]
    have h1 : s < g2.m_MaxNodes := by omega
    have h2 : g2.m_Active s = true := by
      rw [hact s, if_pos rfl]
    simp [h1, h2]
  rw [remove_node, if_neg (by simp [hvalid])]
  refine ⟨?_, ?_, hmax⟩
  · intro i
    by_cases his : i = s
    · rw [his]
      simp only [if_pos rfl]
      exact hs_inactive.symm
    · simp only [if_neg his]
      rw [hact i, if_neg his]
  · intro i
    by_cases his : i = s
    · rw [his]
      simp only [if_pos rfl]
      exact (hwf.2 s hs_inactive).symm
    · simp only [if_neg his]
      rw [hedges i his]
      rw [List.filter_eq_self]
      intro e he
      have hto := hwf.1 i e he
      cases hcase : decide (e.m_To = s)
      · simp
        intro hcon
        rw [hcon] at hto
        rw [hto] at hs_inactive
        exact absurd hs_inactive (by simp)
      · simp
        intro hcon
        rw [hcon] at hto
        rw [hto] at hs_inactive
        exact absurd hs_inactive (by simp)

/-- The connect-search-cleanup stage always ends by removing the transient
node from a graph that differs from its input only in the transient node's
own edge region. -/
theorem connect_and_search_final_graph (sqrtA : ℚ → ℚ)
    (attempt : Nat → PathStatus × List Nat) (g0 : Graph)
    (vid u v : Nat) (bid : Bool) (proj : Vec2) (goal_id : Nat) :
    ∃ g2 : Graph,
      (connect_and_search sqrtA attempt g0 vid u v bid proj goal_id).2 =
        remove_node g2 vid ∧
      g2.m_Active = g0.m_Active ∧
      g2.m_MaxNodes = g0.m_MaxNodes ∧
      (∀ j, j ≠ vid → g2.m_Edges j = g0.m_Edges j) := by
  rw [connect_and_search]
  by_cases hc1 : (add_edge g0 vid v
      (sqrtA (math.distance_squared proj (g0.m_Positions v))) false).2 =
      PathStatus.SUCCESS
  · rw [if_neg (by simp [hc1])]
    by_cases hbid : bid = true
    · rw [if_pos hbid]
      by_cases hc2 : (add_edge
          (add_edge g0 vid v
            (sqrtA (math.distance_squared proj (g0.m_Positions v))) false).1 vid u
          (sqrtA (math.distance_squared proj
            ((add_edge g0 vid v
              (sqrtA (math.distance_squared proj (g0.m_Positions v))) false).1.m_Positions u)))
          false).2 = PathStatus.SUCCESS
      · rw [if_neg (by simp [hc2])]
        refine ⟨_, rfl, ?_, ?_, ?_⟩
        · rw [add_edge_false_active, add_edge_false_active]
        · rw [add_edge_false_maxNodes, add_edge_false_maxNodes]
        · intro j hj
          rw [add_edge_false_edges_ne _ _ _ _ _ hj, add_edge_false_edges_ne _ _ _ _ _ hj]
      · rw [if_pos (by simp [hc2])]
        refine ⟨_, rfl, ?_, ?_, ?_⟩
        · rw [add_edge_false_active, add_edge_false_active]
        · rw [add_edge_false_maxNodes, add_edge_false_maxNodes]
        · intro j hj
          rw [add_edge_false_edges_ne _ _ _ _ _ hj, add_edge_false_edges_ne _ _ _ _ _ hj]
    · rw [if_neg hbid]
      rw [if_neg (by simp)]
      refine ⟨_, rfl, ?_, ?_, ?_⟩
      · rw [add_edge_false_active]
      · rw [add_edge_false_maxNodes]
      · intro j hj
        exact add_edge_false_edges_ne _ _ _ _ _ hj
  · rw [if_pos (by simp [hc1])]
    refine ⟨_, rfl, ?_, ?_, ?_⟩
    · rw [add_edge_false_active]
    · rw [add_edge_false_maxNodes]
    · intro j hj
      exact add_edge_false_edges_ne _ _ _ _ _ hj

/-- The active count only depends on the active flags and the capacity. -/
theorem activeCount_congr (g g2 : Graph)
    (hmax : g2.m_MaxNodes = g.m_MaxNodes)
    (hact : ∀ i, g2.m_Active i = g.m_Active i) :
    activeCount g2 = activeCount g := by
  rw [activeCount, activeCount, hmax]
  congr 1
  apply List.filter_congr
  intro i _
  rw [hact i]

/-- Every call to `find_path_projected` either leaves the graph untouched
(the exits before the transient node is created) or ends by removing the
transient node from a graph that differs from the input graph only by that
node's activation and its own edge region. -/
theorem find_path_projected_exit_shape (sqrtA : ℚ → ℚ)
    (attempt : Nat → PathStatus × List Nat) (g : Graph) (position : Vec2)
    (goal_id virtual_max_path : Nat) :
    (find_path_projected sqrtA attempt g position goal_id virtual_max_path).2 = g ∨
    (∃ s g2, firstInactiveSlot g = some s ∧
      (find_path_projected sqrtA attempt g position goal_id virtual_max_path).2 =
        remove_node g2 s ∧
      g2.m_MaxNodes = g.m_MaxNodes ∧
      (∀ j, g2.m_Active j = if j = s then true else g.m_Active j) ∧
      (∀ j, j ≠ s → g2.m_Edges j = g.m_Edges j)) := by
  rw [find_path_projected]
  by_cases hgoal : is_node_valid g goal_id = true
  · rw [if_neg (by simp [hgoal])]
    cases hne : find_nearest_edge g position with
    | none => exact Or.inl rfl
    | some tup =>
      obtain ⟨u, v, bid, proj⟩ := tup
      dsimp only
      cases hslot : firstInactiveSlot g with
      | none =>
        have hadd : add_node g proj = ((INVALID_ID, PathStatus.ERROR_NODE_FULL), g) := by
          rw [add_node, hslot]
        rw [hadd, if_pos (by simp)]
        exact Or.inl rfl
      | some s =>
        rcases happ : add_node g proj with ⟨⟨vid, st⟩, gA⟩
        have happ2 := happ
        rw [add_node, hslot] at happ2
        simp only [Prod.mk.injEq] at happ2
        obtain ⟨⟨hvid, hst⟩, hga⟩ := happ2
        subst hvid
        subst hst
        have hmaxA : gA.m_MaxNodes = g.m_MaxNodes := by
          rw [← hga]
        have hactA : ∀ j, gA.m_Active j = if j = s then true else g.m_Active j := by
          intro j
          rw [← hga]
        have hedgesA : ∀ j, gA.m_Edges j = g.m_Edges j := by
          intro j
          rw [← hga]
        rw [if_neg (by simp)]
        dsimp only
        obtain ⟨g2, hrem, hact2, hmax2, hedges2⟩ :=
          connect_and_search_final_graph sqrtA attempt gA s u v bid proj goal_id
        refine Or.inr ⟨s, g2, rfl, hrem, by rw [hmax2, hmaxA], ?_, ?_⟩
        · intro j
          rw [hact2]
          exact hactA j
        · intro j hj
          rw [hedges2 j hj]
          exact hedgesA j
  · rw [if_pos (by simp [hgoal])]
    exact Or.inl rfl

/-- C1: on every exit path of `find_path_projected` — including the failure
exits for heap full, no path and graph changed (any attempt oracle), node
full and edge full — the transient virtual node and its edges are removed
before returning: for every well-formed graph, the active flags, the active
node count and every source's edge list after the call equal their values
before the call. -/
theorem C1_projected_cleanup (sqrtA : ℚ → ℚ)
    (attempt : Nat → PathStatus × List Nat) (g : Graph) (position : Vec2)
    (goal_id virtual_max_path : Nat) (hwf : WellFormed g) :
    (∀ i, (find_path_projected sqrtA attempt g position goal_id virtual_max_path).2.m_Active i =
      g.m_Active i) ∧
    (∀ i, (find_path_projected sqrtA attempt g position goal_id virtual_max_path).2.m_Edges i =
      g.m_Edges i) ∧
    activeCount (find_path_projected sqrtA attempt g position goal_id virtual_max_path).2 =
      activeCount g := by
  rcases find_path_projected_exit_shape sqrtA attempt g position goal_id virtual_max_path
    with heq | ⟨s, g2, hslot, hrem, hmax2, hact2, hedges2⟩
  · rw [heq]
    exact ⟨fun i => rfl, fun i => rfl, rfl⟩
  · obtain ⟨hs_lt, hs_inactive⟩ := firstInactiveSlot_spec g s hslot
    obtain ⟨hAct, hEdg, hMax⟩ :=
      remove_node_frame g g2 s hwf hs_lt hs_inactive hmax2 hact2 hedges2
    rw [hrem]
    exact ⟨hAct, hEdg, activeCount_congr g (remove_node g2 s) hMax hAct⟩

/-- A concrete well-formed graph: slots 0 and 1 active and joined by a
bidirectional edge pair, slot 2 free for the transient node. -/
def projWitnessGraph : Graph :=
  Graph.mk 3 2 (fun i => decide (i < 2))
    (fun i => if i = 0 then Vec2.mk 0 0 else Vec2.mk 10 0)
    (fun i => if i = 0 then [Edge.mk 1 10 true]
      else if i = 1 then [Edge.mk 0 10 true] else [])
    2 2

/-- The concrete witness graph satisfies the well-formedness invariants. -/
theorem projWitnessGraph_wf : WellFormed projWitnessGraph := by
  constructor
  · intro i e he
    by_cases h0 : i = 0
    · subst h0
      simp [projWitnessGraph] at he
      subst he
      rfl
    · by_cases h1 : i = 1
      · subst h1
        simp [projWitnessGraph] at he
        subst he
        rfl
      · simp [projWitnessGraph, h0, h1] at he
  · intro i hi
    by_cases h0 : i = 0
    · subst h0
      exact absurd hi (by decide)
    · by_cases h1 : i = 1
      · subst h1
        exact absurd hi (by decide)
      · simp only [projWitnessGraph, if_neg h0, if_neg h1]

/-- Witness for C1: a projected query on the concrete graph, with an
identity square-root model and an oracle that reports a successful 2-node
path; the graph observables are restored. -/
theorem C1_projected_cleanup_witness :
    (∀ i, (find_path_projected (fun q => q) (fun _ => (PathStatus.SUCCESS, [2, 1]))
        projWitnessGraph (Vec2.mk 5 3) 1 64).2.m_Active i =
      projWitnessGraph.m_Active i) ∧
    (∀ i, (find_path_projected (fun q => q) (fun _ => (PathStatus.SUCCESS, [2, 1]))
        projWitnessGraph (Vec2.mk 5 3) 1 64).2.m_Edges i =
      projWitnessGraph.m_Edges i) ∧
    activeCount (find_path_projected (fun q => q) (fun _ => (PathStatus.SUCCESS, [2, 1]))
        projWitnessGraph (Vec2.mk 5 3) 1 64).2 =
      activeCount projWitnessGraph :=
  C1_projected_cleanup (fun q => q) (fun _ => (PathStatus.SUCCESS, [2, 1]))
    projWitnessGraph (Vec2.mk 5 3) 1 64 projWitnessGraph_wf

end path

end pathfinder
